import Mathlib

/-!
Verification of the interactive widget and event-dispatch framework of the
future_temperatures repository (py_shapes.py, graph_objects.py), via a shallow
embedding: pure Lean functions mirror the Python methods, with rationals in
place of Python floats and explicit state passing in place of mutation.
-/

namespace FutureTemps

/-! Geometry primitives (py_shapes.py, Point and Size). -/

/-- Mirrors the Point dataclass of py_shapes.py: a point on an x-y plane. -/
structure Point where
  x : ℚ
  y : ℚ
deriving DecidableEq, Repr

/-- Mirrors Point.increment: componentwise sum of two points
(self[0] + offset[0], self[1] + offset[1]). -/
def Point.increment (p off : Point) : Point :=
  ⟨p.x + off.x, p.y + off.y⟩

/-- Mirrors Point.__getitem__ for indices 0 and 1 (item 0 is x, item 1 is y).
Other indices raise in Python and are outside the modelled domain. -/
def pointIdx (p : Point) (item : Nat) : ℚ :=
  if item = 0 then p.x else p.y

/-- Mirrors the Size dataclass of py_shapes.py. -/
structure Size where
  width : ℚ
  height : ℚ
deriving DecidableEq, Repr

/-- Mirrors Size.__getitem__ for indices 0 and 1 (item 0 is width, item 1 is
height). -/
def sizeIdx (s : Size) (item : Nat) : ℚ :=
  if item = 0 then s.width else s.height

/-! Scene graph positioning (py_shapes.py, PygameObject.absolute_pos).
Nodes are identified by natural numbers; a scene assigns to each node its
relative position and its parent id.  A root is its own parent, which is how
PygameObject.__init__ initialises self.parent = self. -/

/-- A scene: each node id maps to (position, parent id). -/
def Scene := Nat → Point × Nat

/-- Mirrors PygameObject.absolute_pos with explicit recursion fuel (Python
recursion terminates only on acyclic parent chains; the fuel makes the
embedding total, and the correctness theorem shows any fuel at least the
chain length suffices).  A node whose parent is itself returns its own
position; otherwise the result is Point.increment of the position with the
parent's absolute position. -/
def absolute_pos (scene : Scene) : Nat → Nat → Option Point
  | _, 0 => none
  | n, fuel + 1 =>
      if (scene n).2 = n then some (scene n).1
      else
        match absolute_pos scene (scene n).2 fuel with
        | some q => some (Point.increment (scene n).1 q)
        | none => none

/-- The parent chain of a node down to the root: ChainTo scene n c holds when
c lists n, then its parent, and so on, ending at a node that is its own
parent. -/
inductive ChainTo (scene : Scene) : Nat → List Nat → Prop
  | root (n : Nat) : (scene n).2 = n → ChainTo scene n [n]
  | step (n : Nat) (c : List Nat) : (scene n).2 ≠ n →
      ChainTo scene (scene n).2 c → ChainTo scene n (n :: c)

/-- Componentwise sum of the positions of every node along a chain. -/
def chain_sum (scene : Scene) (c : List Nat) : Point :=
  ⟨(c.map fun m => (scene m).1.x).sum, (c.map fun m => (scene m).1.y).sum⟩

theorem chain_length_pos {scene : Scene} {n : Nat} {c : List Nat}
    (h : ChainTo scene n c) : 0 < c.length := by
  cases h <;> simp

/-- C2: for every scene node whose parent chain is acyclic and ends at a root
that is its own parent, absolute_pos terminates (returns some) and returns the
componentwise sum of the node's own position and the positions of every
ancestor up to the root, for any fuel at least the chain depth - hence
independent of the depth. -/
theorem absolute_pos_eq_chain_sum {scene : Scene} {n : Nat} {c : List Nat}
    (h : ChainTo scene n c) :
    ∀ fuel : Nat, c.length ≤ fuel →
      absolute_pos scene n fuel = some (chain_sum scene c) := by
  induction h with
  | root m hroot =>
      intro fuel hfuel
      match fuel, hfuel with
      | fuel + 1, _ =>
        simp only [absolute_pos, hroot, if_pos]
        simp [chain_sum]
  | step m c hm _ ih =>
      intro fuel hfuel
      match fuel, hfuel with
      | fuel + 1, hfuel =>
        have hlen : c.length ≤ fuel := by
          simpa [Nat.succ_le_succ_iff] using hfuel
        simp only [absolute_pos, if_neg hm, ih fuel hlen]
        simp [chain_sum, Point.increment]

/-- Concrete scene used by the witness: node 0 has parent 1, node 1 has parent
2, node 2 is a root. -/
def demo_scene : Scene := fun n =>
  if n = 0 then (⟨1, 2⟩, 1)
  else if n = 1 then (⟨3, 4⟩, 2)
  else (⟨5, 6⟩, 2)

/-- Witness for C2: the chain 0 -> 1 -> 2 of demo_scene has depth 3, and
absolute_pos at fuel 3 returns the componentwise sum (1+3+5, 2+4+6). -/
theorem absolute_pos_eq_chain_sum_witness :
    absolute_pos demo_scene 0 3 = some (chain_sum demo_scene [0, 1, 2]) :=
  absolute_pos_eq_chain_sum
    (ChainTo.step 0 [1, 2] (by decide)
      (ChainTo.step 1 [2] (by decide)
        (ChainTo.root 2 (by decide))))
    3 (by decide)

/-! Event router (py_shapes.py, class CustomMouseEvent).
The router state combines the static event_handlers list and the event_map
dict: a registration-ordered list of (node id, subscription list) entries.
A subscription mirrors a CustomMouseEvent instance; its action field stands
for the bound event_action callable (CustomMouseEvent.__eq__ compares
event_object, event_type and _event_action, which structure equality
mirrors).  Handler semantics are a parameter act: given an action and the
event, it returns the replacement subscription list the handler produces. -/

/-- The pygame MOUSEMOTION event type constant. -/
def MOUSEMOTION : Nat := 1024

/-- The pygame MOUSEBUTTONDOWN event type constant. -/
def MOUSEBUTTONDOWN : Nat := 1025

/-- The pygame MOUSEBUTTONUP event type constant. -/
def MOUSEBUTTONUP : Nat := 1026

/-- A pygame pointer event: type, position, button. -/
structure Event where
  etype : Nat
  pos : Point
  button : Nat
deriving DecidableEq, Repr

/-- Mirrors a CustomMouseEvent instance: the subscribing node (event_object),
the event kind (event_type) and the handler action.  Structure equality
mirrors CustomMouseEvent.__eq__. -/
structure CustomMouseEvent (α : Type) where
  event_object : Nat
  event_type : Nat
  action : α
deriving DecidableEq, Repr

/-- The router table: registration-ordered (node id, subscription list)
entries, combining CustomMouseEvent.event_handlers and event_map. -/
abbrev RouterTable (α : Type) : Type := List (Nat × List (CustomMouseEvent α))

/-- Mirrors the inner loop of CustomMouseEvent.play_events: building
new_events from a node's subscription list.  A subscription matching the
event type is invoked and its returned list extended into the result; a
non-matching subscription is appended unchanged. -/
def new_events (act : α → Event → List (CustomMouseEvent α)) (ev : Event) :
    List (CustomMouseEvent α) → List (CustomMouseEvent α)
  | [] => []
  | me :: rest =>
      (if ev.etype = me.event_type then act me.action ev else [me]) ++
        new_events act ev rest

/-- Mirrors the outer loop of CustomMouseEvent.play_events over the already
reversed handler list: each node's new_events list is installed; if it
differs from the previous list the loop returns (the rest of the scan is
skipped), otherwise scanning continues. -/
def play_events_scan [DecidableEq α] (act : α → Event → List (CustomMouseEvent α))
    (ev : Event) : RouterTable α → RouterTable α
  | [] => []
  | (n, subs) :: rest =>
      let ne := new_events act ev subs
      if ne = subs then (n, ne) :: play_events_scan act ev rest
      else (n, ne) :: rest

/-- Mirrors CustomMouseEvent.play_events: scan the handlers in reverse
registration order (event_handlers[::-1]); the table is kept in registration
order, so the scan runs on the reversed table and the result is reversed
back. -/
def play_events [DecidableEq α] (act : α → Event → List (CustomMouseEvent α))
    (ev : Event) (table : RouterTable α) : RouterTable α :=
  (play_events_scan act ev table.reverse).reverse

/-- Mirrors CustomMouseEvent.add_event: a new CustomMouseEvent is constructed
with the given event_type, its event_type field is then overwritten with
MOUSEBUTTONDOWN, a previously unseen handler is appended to the registration
order with an empty list, and the new event is appended to the handler's
list. -/
def add_event [DecidableEq α] (table : RouterTable α) (event_handler : Nat)
    (event_action : α) (event_type : Nat) : RouterTable α :=
  let new_event : CustomMouseEvent α :=
    ⟨event_handler, event_type, event_action⟩
  let new_event2 : CustomMouseEvent α :=
    { new_event with event_type := MOUSEBUTTONDOWN }
  if (table.map Prod.fst).contains event_handler then
    table.map fun p =>
      if p.1 = event_handler then (p.1, p.2 ++ [new_event2]) else p
  else
    table ++ [(event_handler, [new_event2])]

/-- Structure of one play_events_scan pass: either no node's list changes and
the table is returned unchanged, or the scan stops at the first entry whose
recomputed list differs, every entry before it (scanned earlier) having an
unchanged recomputation, and every entry after it untouched. -/
theorem play_events_scan_cases [DecidableEq α]
    (act : α → Event → List (CustomMouseEvent α)) (ev : Event) :
    ∀ l : RouterTable α,
      play_events_scan act ev l = l ∨
      ∃ pre n subs post,
        l = pre ++ (n, subs) :: post ∧
        play_events_scan act ev l = pre ++ (n, new_events act ev subs) :: post ∧
        new_events act ev subs ≠ subs ∧
        ∀ p ∈ pre, new_events act ev p.2 = p.2 := by
  intro l
  induction l with
  | nil => exact Or.inl rfl
  | cons hd rest ih =>
      obtain ⟨n, subs⟩ := hd
      by_cases h : new_events act ev subs = subs
      · rcases ih with h2 | ⟨pre, m, subs2, post, hrest, hscan, hne, hpre⟩
        · refine Or.inl ?_
          simp [play_events_scan, h, h2]
        · refine Or.inr ⟨(n, subs) :: pre, m, subs2, post, ?_, ?_, hne, ?_⟩
          · simp only [List.cons_append]
            exact congrArg _ hrest
          · simp only [List.cons_append]
            simp [play_events_scan, h, hscan]
          · intro p hp
            rcases List.mem_cons.mp hp with hp | hp
            · subst hp; exact h
            · exact hpre p hp
      · refine Or.inr ⟨[], n, subs, rest, rfl, ?_, h, by simp⟩
        simp only [List.nil_append]
        simp [play_events_scan, h]

/-- Structure of a full play_events dispatch on the registration-ordered
table: either nothing changes, or exactly one entry is replaced; the changed
entry is the last one (in registration order, hence the first in the reversed
scan order) whose recomputed list differs, every entry after it having an
unchanged recomputation. -/
theorem play_events_cases [DecidableEq α]
    (act : α → Event → List (CustomMouseEvent α)) (ev : Event)
    (table : RouterTable α) :
    play_events act ev table = table ∨
    ∃ front n subs back,
      table = front ++ (n, subs) :: back ∧
      play_events act ev table = front ++ (n, new_events act ev subs) :: back ∧
      new_events act ev subs ≠ subs ∧
      ∀ p ∈ back, new_events act ev p.2 = p.2 := by
  rcases play_events_scan_cases act ev table.reverse with h |
      ⟨pre, n, subs, post, hrev, hscan, hne, hpre⟩
  · refine Or.inl ?_
    simp [play_events, h]
  · refine Or.inr ⟨post.reverse, n, subs, pre.reverse, ?_, ?_, hne, ?_⟩
    · have h2 := congrArg List.reverse hrev
      simp only [List.reverse_reverse, List.reverse_append, List.reverse_cons,
        List.append_assoc, List.singleton_append] at h2
      exact h2
    · have h2 : play_events act ev table =
          (pre ++ (n, new_events act ev subs) :: post).reverse := by
        simp [play_events, hscan]
      simp only [List.reverse_append, List.reverse_cons, List.append_assoc,
        List.singleton_append] at h2
      exact h2
    · intro p hp
      exact hpre p (List.mem_reverse.mp hp)

/-- C1: for every dispatched event, play_events scans the registered nodes in
reverse registration order and stops at the first node whose recomputed
subscription list differs from its previous list; at most one node's entry
changes, and every other node keeps its subscription list: either the table
is unchanged, or exactly one entry (n, subs) is replaced by its recomputed
list, with every node registered after it (scanned before it) recomputing to
its unchanged list and every node registered before it untouched. -/
theorem play_events_single_change [DecidableEq α]
    (act : α → Event → List (CustomMouseEvent α)) (ev : Event)
    (table : RouterTable α) :
    play_events act ev table = table ∨
    ∃ front n subs back,
      table = front ++ (n, subs) :: back ∧
      play_events act ev table = front ++ (n, new_events act ev subs) :: back ∧
      new_events act ev subs ≠ subs ∧
      ∀ p ∈ back, new_events act ev p.2 = p.2 :=
  play_events_cases act ev table

/-- A subscription list none of whose entries match the event type is
recomputed unchanged by new_events. -/
theorem new_events_no_match (act : α → Event → List (CustomMouseEvent α))
    (ev : Event) (subs : List (CustomMouseEvent α))
    (h : ∀ me ∈ subs, me.event_type ≠ ev.etype) :
    new_events act ev subs = subs := by
  induction subs with
  | nil => rfl
  | cons me rest ih =>
      have hme : me.event_type ≠ ev.etype := h me (List.mem_cons_self me rest)
      have hcond : ¬ (ev.etype = me.event_type) := fun hc => hme hc.symm
      simp only [new_events, if_neg hcond, List.singleton_append, List.cons.injEq,
        true_and]
      exact ih fun x hx => h x (List.mem_cons_of_mem me hx)

/-- C9: dispatching an event whose type matches none of a node's current
subscriptions (including an empty subscription list) leaves that node's entry
of the router table unchanged; play_events is a total function, so dispatch
completes without error. -/
theorem play_events_no_match_unchanged [DecidableEq α]
    (act : α → Event → List (CustomMouseEvent α)) (ev : Event)
    (table : RouterTable α) (i : Nat) (n : Nat)
    (subs : List (CustomMouseEvent α))
    (hget : table[i]? = some (n, subs))
    (hno : ∀ me ∈ subs, me.event_type ≠ ev.etype) :
    (play_events act ev table)[i]? = some (n, subs) := by
  have hsubs : new_events act ev subs = subs := new_events_no_match act ev subs hno
  rcases play_events_cases act ev table with h |
      ⟨front, m, subs2, back, htab, hplay, hne, _⟩
  · rw [h]; exact hget
  · rw [hplay]
    rw [htab] at hget
    rcases Nat.lt_trichotomy i front.length with hlt | heq | hgt
    · rw [List.getElem?_append, if_pos hlt] at hget ⊢
      exact hget
    · exfalso
      subst heq
      rw [List.getElem?_append_right (Nat.le_refl _), Nat.sub_self] at hget
      simp only [List.getElem?_cons_zero, Option.some.injEq] at hget
      have hs : subs2 = subs := congrArg Prod.snd hget
      exact hne (hs ▸ hsubs)
    · have hge : front.length ≤ i := Nat.le_of_lt hgt
      rw [List.getElem?_append_right hge] at hget ⊢
      obtain ⟨k, hk⟩ : ∃ k, i - front.length = k + 1 :=
        ⟨i - front.length - 1, by omega⟩
      rw [hk] at hget ⊢
      simp only [List.getElem?_cons_succ] at hget ⊢
      exact hget

/-- Concrete router action table for witnesses: actions are numbers and every
invocation returns the empty replacement list. -/
def demo_act : Nat → Event → List (CustomMouseEvent Nat) := fun _ _ => []

/-- Concrete router table for witnesses: node 0 holds one button-down
subscription, node 1 holds none. -/
def demo_table : RouterTable Nat :=
  [(0, [⟨0, MOUSEBUTTONDOWN, 7⟩]), (1, [])]

/-- A mouse-motion event used by witnesses. -/
def demo_motion : Event := ⟨MOUSEMOTION, ⟨0, 0⟩, 0⟩

/-- Witness for C9: dispatching a motion event through demo_table leaves
node 0's button-down subscription list unchanged. -/
theorem play_events_no_match_unchanged_witness :
    (play_events demo_act demo_motion demo_table)[0]? =
      some (0, [⟨0, MOUSEBUTTONDOWN, 7⟩]) :=
  play_events_no_match_unchanged demo_act demo_motion demo_table 0 0
    [⟨0, MOUSEBUTTONDOWN, 7⟩] (by decide) (by decide)

/-- C10: add_event appends a subscription whose event kind is
MOUSEBUTTONDOWN regardless of the event_type argument: the resulting table
does not depend on the event_type argument, and every subscription of the
result either already belonged to the same node in the old table or is
exactly the handler subscription with kind MOUSEBUTTONDOWN. -/
theorem add_event_always_mousebuttondown [DecidableEq α] (table : RouterTable α)
    (h : Nat) (a : α) (event_type : Nat) :
    add_event table h a event_type = add_event table h a MOUSEBUTTONDOWN ∧
    ∀ p ∈ add_event table h a event_type, ∀ me ∈ p.2,
      (∃ q ∈ table, q.1 = p.1 ∧ me ∈ q.2) ∨
      me = (⟨h, MOUSEBUTTONDOWN, a⟩ : CustomMouseEvent α) := by
  constructor
  · rfl
  · intro p hp me hme
    simp only [add_event] at hp
    by_cases hc : (table.map Prod.fst).contains h
    · rw [if_pos hc] at hp
      rcases List.mem_map.mp hp with ⟨q, hq, hqp⟩
      by_cases hqh : q.1 = h
      · rw [if_pos hqh] at hqp
        rcases List.mem_append.mp (hqp ▸ hme) with hm | hm
        · exact Or.inl ⟨q, hq, by rw [← hqp], hm⟩
        · exact Or.inr (by simpa using hm)
      · rw [if_neg hqh] at hqp
        exact Or.inl ⟨q, hq, by rw [hqp], hqp ▸ hme⟩
    · rw [if_neg hc] at hp
      rcases List.mem_append.mp hp with hm | hm
      · exact Or.inl ⟨p, hm, rfl, hme⟩
      · have hp2 : p = (h, [(⟨h, MOUSEBUTTONDOWN, a⟩ : CustomMouseEvent α)]) := by
          simpa using hm
        exact Or.inr (by rw [hp2] at hme; simpa using hme)

/-- Witness for C10: adding a motion-typed subscription to the empty table
yields the same table as adding a button-down one, and the single resulting
subscription is the button-down subscription. -/
theorem add_event_always_mousebuttondown_witness :
    add_event ([] : RouterTable Nat) 0 5 MOUSEMOTION =
      add_event ([] : RouterTable Nat) 0 5 MOUSEBUTTONDOWN ∧
    ((∃ q ∈ ([] : RouterTable Nat), q.1 = 0 ∧
        (⟨0, MOUSEBUTTONDOWN, 5⟩ : CustomMouseEvent Nat) ∈ q.2) ∨
      (⟨0, MOUSEBUTTONDOWN, 5⟩ : CustomMouseEvent Nat) =
        (⟨0, MOUSEBUTTONDOWN, 5⟩ : CustomMouseEvent Nat)) :=
  ⟨(add_event_always_mousebuttondown ([] : RouterTable Nat) 0 5 MOUSEMOTION).1,
   (add_event_always_mousebuttondown ([] : RouterTable Nat) 0 5 MOUSEMOTION).2
     (0, [⟨0, MOUSEBUTTONDOWN, 5⟩]) (by decide)
     ⟨0, MOUSEBUTTONDOWN, 5⟩ (by decide)⟩

/-! Draggable state machine (py_shapes.py, class Draggable).
Handler actions are named by the DragAction tag; a handler invocation maps
the node's mutable state (position, _can_drag, drag_point) to its next state
together with the replacement subscription list it returns. -/

/-- Tags naming the Draggable and Rectangle handler methods. -/
inductive DragAction where
  | start_drag
  | drag
  | end_drag
deriving DecidableEq, Repr

/-- The mutable state of a Draggable touched by its handlers. -/
structure DraggableState where
  position : Point
  can_drag : Bool
  drag_point : Option Point
deriving DecidableEq, Repr

/-- Mirrors Draggable.start_drag: with dragging disabled, resubscribe to
button-down without touching state; otherwise record the pointer position as
drag_point and subscribe to move and button-up. -/
def Draggable.start_drag (selfId : Nat) (st : DraggableState) (event : Event) :
    DraggableState × List (CustomMouseEvent DragAction) :=
  if st.can_drag = false then
    (st, [⟨selfId, MOUSEBUTTONDOWN, DragAction.start_drag⟩])
  else
    ({ st with drag_point := some event.pos },
     [⟨selfId, MOUSEMOTION, DragAction.drag⟩,
      ⟨selfId, MOUSEBUTTONUP, DragAction.end_drag⟩])

/-- Mirrors Draggable.drag: with an active drag_point, add the delta between
the event position and drag_point to the node's position, move drag_point to
the event position, and resubscribe to move only; otherwise return the empty
list. -/
def Draggable.drag (selfId : Nat) (st : DraggableState) (event : Event) :
    DraggableState × List (CustomMouseEvent DragAction) :=
  match st.drag_point with
  | some dp =>
      let dx := event.pos.x - dp.x
      let dy := event.pos.y - dp.y
      ({ st with
          position := st.position.increment ⟨dx, dy⟩,
          drag_point := some event.pos },
       [⟨selfId, MOUSEMOTION, DragAction.drag⟩])
  | none => (st, [])

/-- Mirrors Draggable.end_drag: clear drag_point and resubscribe to
button-down. -/
def Draggable.end_drag (selfId : Nat) (st : DraggableState) (_event : Event) :
    DraggableState × List (CustomMouseEvent DragAction) :=
  ({ st with drag_point := none },
   [⟨selfId, MOUSEBUTTONDOWN, DragAction.start_drag⟩])

/-- C3: for a draggable node with dragging enabled and no active drag
session, start_drag with a primary-button down event at P1, then drag with a
move event at P2, then end_drag with a primary-button up event, leaves the
position equal to the original position plus the componentwise difference
P2 - P1, and returns drag_point to absent. -/
theorem drag_round_trip (selfId : Nat) (st : DraggableState) (e1 e2 e3 : Event)
    (hcan : st.can_drag = true) (hidle : st.drag_point = none)
    (hb1 : e1.button = 1) (hb3 : e3.button = 1) :
    (Draggable.end_drag selfId
        (Draggable.drag selfId (Draggable.start_drag selfId st e1).1 e2).1
        e3).1.position =
      st.position.increment ⟨e2.pos.x - e1.pos.x, e2.pos.y - e1.pos.y⟩ ∧
    (Draggable.end_drag selfId
        (Draggable.drag selfId (Draggable.start_drag selfId st e1).1 e2).1
        e3).1.drag_point = none := by
  have h1 : (Draggable.start_drag selfId st e1).1 =
      { st with drag_point := some e1.pos } := by
    simp [Draggable.start_drag, hcan]
  rw [h1]
  simp [Draggable.drag, Draggable.end_drag]

/-- Witness for C3: a concrete draggable at (10, 20), drag-enabled and idle,
dragged from P1 = (3, 4) to P2 = (8, 1), ends at (15, 17) with no drag
session. -/
theorem drag_round_trip_witness :
    (Draggable.end_drag 0
        (Draggable.drag 0
          (Draggable.start_drag 0 ⟨⟨10, 20⟩, true, none⟩
            ⟨MOUSEBUTTONDOWN, ⟨3, 4⟩, 1⟩).1
          ⟨MOUSEMOTION, ⟨8, 1⟩, 1⟩).1
        ⟨MOUSEBUTTONUP, ⟨7, 7⟩, 1⟩).1.position =
      Point.increment ⟨10, 20⟩ ⟨8 - 3, 1 - 4⟩ ∧
    (Draggable.end_drag 0
        (Draggable.drag 0
          (Draggable.start_drag 0 ⟨⟨10, 20⟩, true, none⟩
            ⟨MOUSEBUTTONDOWN, ⟨3, 4⟩, 1⟩).1
          ⟨MOUSEMOTION, ⟨8, 1⟩, 1⟩).1
        ⟨MOUSEBUTTONUP, ⟨7, 7⟩, 1⟩).1.drag_point = none :=
  drag_round_trip 0 ⟨⟨10, 20⟩, true, none⟩ ⟨MOUSEBUTTONDOWN, ⟨3, 4⟩, 1⟩
    ⟨MOUSEMOTION, ⟨8, 1⟩, 1⟩ ⟨MOUSEBUTTONUP, ⟨7, 7⟩, 1⟩
    rfl rfl rfl rfl

/-! Rectangle (py_shapes.py, class Rectangle): hit testing and the start_drag
override.  The parent chain used by absolute_pos is carried as the list of
ancestor positions, whose componentwise sum added to the own position is the
absolute position (this is what PygameObject.absolute_pos computes on an
acyclic chain, by absolute_pos_eq_chain_sum). -/

/-- The state of a Rectangle relevant to hit testing and dragging. -/
structure RectangleState where
  drag_state : DraggableState
  width : ℚ
  height : ℚ
  ancestors : List Point
deriving DecidableEq, Repr

/-- The rectangle's absolute position: own position plus the componentwise
sum of every ancestor position. -/
def RectangleState.absolute_pos (r : RectangleState) : Point :=
  ⟨r.drag_state.position.x + (r.ancestors.map Point.x).sum,
   r.drag_state.position.y + (r.ancestors.map Point.y).sum⟩

/-- Mirrors Rectangle.is_mouse_over: strict interior containment against the
absolute position (absolute.x < pos.x < absolute.x + width, and likewise for
y). -/
def Rectangle.is_mouse_over (r : RectangleState) (event : Event) : Bool :=
  let absolute_position := r.absolute_pos
  let within_x := decide (absolute_position.x < event.pos.x) &&
    decide (event.pos.x < absolute_position.x + r.width)
  let within_y := decide (absolute_position.y < event.pos.y) &&
    decide (event.pos.y < absolute_position.y + r.height)
  within_x && within_y

/-- Mirrors Rectangle.start_drag: delegate to Draggable.start_drag only when
the mouse is over the shape and the button is the primary button; otherwise
resubscribe to button-down. -/
def Rectangle.start_drag (selfId : Nat) (r : RectangleState) (event : Event) :
    RectangleState × List (CustomMouseEvent DragAction) :=
  if Rectangle.is_mouse_over r event && (event.button == 1) then
    let res := Draggable.start_drag selfId r.drag_state event
    ({ r with drag_state := res.1 }, res.2)
  else
    (r, [⟨selfId, MOUSEBUTTONDOWN, DragAction.start_drag⟩])

/-- C7: a button-down event whose pointer is not strictly inside the
Rectangle or whose button is not primary never begins a drag session: the
state (in particular drag_point and position) is unchanged and the returned
subscription list is the single button-down resubscription; moreover a
pointer exactly on one of the rectangle's edges is never a hit. -/
theorem rectangle_start_drag_rejects (selfId : Nat) (r : RectangleState)
    (event : Event)
    (h : Rectangle.is_mouse_over r event = false ∨ event.button ≠ 1) :
    (Rectangle.start_drag selfId r event).1 = r ∧
    (Rectangle.start_drag selfId r event).2 =
      [⟨selfId, MOUSEBUTTONDOWN, DragAction.start_drag⟩] ∧
    (Rectangle.start_drag selfId r event).1.drag_state.drag_point =
      r.drag_state.drag_point ∧
    (Rectangle.start_drag selfId r event).1.drag_state.position =
      r.drag_state.position ∧
    ∀ e2 : Event,
      (e2.pos.x = r.absolute_pos.x ∨ e2.pos.x = r.absolute_pos.x + r.width ∨
        e2.pos.y = r.absolute_pos.y ∨ e2.pos.y = r.absolute_pos.y + r.height) →
      Rectangle.is_mouse_over r e2 = false := by
  have hcond : (Rectangle.is_mouse_over r event && (event.button == 1)) = false := by
    rcases h with h | h
    · simp [h]
    · simp [beq_iff_eq, h]
  refine ⟨?_, ?_, ?_, ?_, ?_⟩
  · simp [Rectangle.start_drag, hcond]
  · simp [Rectangle.start_drag, hcond]
  · simp [Rectangle.start_drag, hcond]
  · simp [Rectangle.start_drag, hcond]
  · intro e2 he2
    simp only [Rectangle.is_mouse_over, Bool.and_eq_false_iff,
      decide_eq_false_iff_not, not_lt]
    rcases he2 with he | he | he | he
    · exact Or.inl (Or.inl (le_of_eq he))
    · exact Or.inl (Or.inr (le_of_eq he.symm))
    · exact Or.inr (Or.inl (le_of_eq he))
    · exact Or.inr (Or.inr (le_of_eq he.symm))

/-- Witness for C7: a 10 x 10 rectangle whose absolute origin is (10, 10)
(own position (4, 4), one ancestor at (6, 6)) rejects a button-down exactly
on its left edge x = 10: state unchanged, single button-down resubscription,
and the edge point is not a hit. -/
theorem rectangle_start_drag_rejects_witness :
    (Rectangle.start_drag 0
        ⟨⟨⟨4, 4⟩, true, none⟩, 10, 10, [⟨6, 6⟩]⟩
        ⟨MOUSEBUTTONDOWN, ⟨10, 15⟩, 1⟩).1 =
      ⟨⟨⟨4, 4⟩, true, none⟩, 10, 10, [⟨6, 6⟩]⟩ ∧
    (Rectangle.start_drag 0
        ⟨⟨⟨4, 4⟩, true, none⟩, 10, 10, [⟨6, 6⟩]⟩
        ⟨MOUSEBUTTONDOWN, ⟨10, 15⟩, 1⟩).2 =
      [⟨0, MOUSEBUTTONDOWN, DragAction.start_drag⟩] :=
  ⟨(rectangle_start_drag_rejects 0 ⟨⟨⟨4, 4⟩, true, none⟩, 10, 10, [⟨6, 6⟩]⟩
      ⟨MOUSEBUTTONDOWN, ⟨10, 15⟩, 1⟩ (Or.inl (by
        simp only [Rectangle.is_mouse_over, RectangleState.absolute_pos,
          List.map_cons, List.map_nil, List.sum_cons, List.sum_nil,
          Bool.and_eq_false_iff, decide_eq_false_iff_not, not_lt]
        norm_num))).1,
   (rectangle_start_drag_rejects 0 ⟨⟨⟨4, 4⟩, true, none⟩, 10, 10, [⟨6, 6⟩]⟩
      ⟨MOUSEBUTTONDOWN, ⟨10, 15⟩, 1⟩ (Or.inl (by
        simp only [Rectangle.is_mouse_over, RectangleState.absolute_pos,
          List.map_cons, List.map_nil, List.sum_cons, List.sum_nil,
          Bool.and_eq_false_iff, decide_eq_false_iff_not, not_lt]
        norm_num))).2.1⟩

/-! Graph (graph_objects.py, Graph.draw_graph): the data-to-pixel transform
and the marker/polyline pass over one dataset. -/

/-- Mirrors the transform of Graph.draw_graph: with (x_1, x_2) the
visible_domain and (y_1, y_2) the visible_range, a sample (dx, dy) maps to
x_pos = panel_width * (dx - x_1) / g_width and
y_pos = panel_height * (1 - (dy - y_1) / g_height), where g_width = x_2 - x_1
and g_height = y_2 - y_1. -/
def pixel_transform (panel_width panel_height x_1 x_2 y_1 y_2 dx dy : ℚ) :
    Point :=
  let g_width := x_2 - x_1
  let g_height := y_2 - y_1
  ⟨panel_width * (dx - x_1) / g_width,
   panel_height * (1 - (dy - y_1) / g_height)⟩

/-- Mirrors the local is_over of Graph.draw_graph: the sample lies in the
visible area, bounds inclusive. -/
def is_over (x_1 x_2 y_1 y_2 dx dy : ℚ) : Bool :=
  (decide (x_1 ≤ dx) && decide (dx ≤ x_2)) &&
    (decide (y_1 ≤ dy) && decide (dy ≤ y_2))

/-- Mirrors the per-dataset loop of Graph.draw_graph: every sample's
transformed point is appended to data_points (the polyline input), and a
marker rectangle is drawn at (x_pos - 5, y_pos - 5) exactly when the sample
is over the visible area and the dataset's marker color is not
"transparent".  Returns (data_points, marker positions drawn). -/
def draw_graph_pass (panel_width panel_height x_1 x_2 y_1 y_2 : ℚ)
    (marker_color : String) : List (ℚ × ℚ) → List Point × List Point
  | [] => ([], [])
  | dp :: rest =>
      let pt := pixel_transform panel_width panel_height x_1 x_2 y_1 y_2 dp.1 dp.2
      let res := draw_graph_pass panel_width panel_height x_1 x_2 y_1 y_2
        marker_color rest
      (pt :: res.1,
       if is_over x_1 x_2 y_1 y_2 dp.1 dp.2 && !(marker_color == "transparent")
       then ⟨pt.x - 5, pt.y - 5⟩ :: res.2
       else res.2)

/-- C4: the pixel transform is exactly
px = panel_width * (x - x1) / (x2 - x1),
py = panel_height * (1 - (y - y1) / (y2 - y1)); in particular, with
x1 different from x2 and y1 different from y2, the point (x1, y2) maps to
pixel (0, 0) of the plot viewport and the point (x2, y1) maps to
(panel_width, panel_height). -/
theorem pixel_transform_corners (panel_width panel_height x_1 x_2 y_1 y_2 : ℚ)
    (hx : x_1 ≠ x_2) (hy : y_1 ≠ y_2) :
    (∀ dx dy, pixel_transform panel_width panel_height x_1 x_2 y_1 y_2 dx dy =
      ⟨panel_width * (dx - x_1) / (x_2 - x_1),
       panel_height * (1 - (dy - y_1) / (y_2 - y_1))⟩) ∧
    pixel_transform panel_width panel_height x_1 x_2 y_1 y_2 x_1 y_2 = ⟨0, 0⟩ ∧
    pixel_transform panel_width panel_height x_1 x_2 y_1 y_2 x_2 y_1 =
      ⟨panel_width, panel_height⟩ := by
  have hgx : x_2 - x_1 ≠ 0 := sub_ne_zero.mpr (Ne.symm hx)
  have hgy : y_2 - y_1 ≠ 0 := sub_ne_zero.mpr (Ne.symm hy)
  refine ⟨fun dx dy => rfl, ?_, ?_⟩
  · simp only [pixel_transform, Point.mk.injEq]
    constructor
    · simp
    · rw [div_self hgy]
      simp
  · simp only [pixel_transform, Point.mk.injEq]
    constructor
    · rw [mul_div_assoc, div_self hgx, mul_one]
    · simp

/-- Witness for C4: viewport 100 x 100 over domain [0, 2] and range
[10, 30]; (0, 30) maps to (0, 0) and (2, 10) maps to (100, 100). -/
theorem pixel_transform_corners_witness :
    pixel_transform 100 100 0 2 10 30 0 30 = ⟨0, 0⟩ ∧
    pixel_transform 100 100 0 2 10 30 2 10 = ⟨100, 100⟩ :=
  ⟨(pixel_transform_corners 100 100 0 2 10 30 (by norm_num) (by norm_num)).2.1,
   (pixel_transform_corners 100 100 0 2 10 30 (by norm_num) (by norm_num)).2.2⟩

/-- Counterexample for C6 as stated: with marker color "transparent" and the
sample (0, 0) inside the visible window [0, 1] x [0, 1], the claim (marker
drawn exactly when the sample is in the window and the color is not "none")
predicts a drawn marker, but draw_graph_pass draws none: the code's disabling
sentinel is "transparent", not "none". -/
theorem marker_rule_counterexample :
    ¬ (((draw_graph_pass 100 100 0 1 0 1 "transparent" [(0, 0)]).2 ≠ []) ↔
      (is_over 0 1 0 1 0 0 = true ∧ "transparent" ≠ "none")) := by
  intro h
  have hover : is_over 0 1 0 1 0 0 = true := by
    simp [is_over]
  have hne : ("transparent" : String) ≠ "none" := by decide
  have hmarkers : (draw_graph_pass 100 100 0 1 0 1 "transparent" [(0, 0)]).2 = [] := by
    simp [draw_graph_pass]
  exact (h.mpr ⟨hover, hne⟩) hmarkers

/-- C6 (amended: the disabling sentinel is the string "transparent", not
"none"): in the per-dataset pass of Graph.draw_graph, a sample is drawn as a
marker exactly when its data-space coordinates lie within
[x1, x2] x [y1, y2] inclusive and the dataset's marker color is not
"transparent" - the markers drawn are exactly the filtered samples, offset by
(-5, -5) from their transformed points - while every sample, inside the
window or not, contributes its transformed point to the polyline input. -/
theorem marker_rule_amended (panel_width panel_height x_1 x_2 y_1 y_2 : ℚ)
    (marker_color : String) (data : List (ℚ × ℚ)) :
    (draw_graph_pass panel_width panel_height x_1 x_2 y_1 y_2 marker_color
        data).1 =
      data.map (fun dp =>
        pixel_transform panel_width panel_height x_1 x_2 y_1 y_2 dp.1 dp.2) ∧
    (draw_graph_pass panel_width panel_height x_1 x_2 y_1 y_2 marker_color
        data).2 =
      (data.filter fun dp =>
          is_over x_1 x_2 y_1 y_2 dp.1 dp.2 &&
            !(marker_color == "transparent")).map
        (fun dp =>
          let pt := pixel_transform panel_width panel_height x_1 x_2 y_1 y_2
            dp.1 dp.2
          ⟨pt.x - 5, pt.y - 5⟩) := by
  induction data with
  | nil => exact ⟨rfl, rfl⟩
  | cons dp rest ih =>
      constructor
      · simp only [draw_graph_pass, List.map_cons]
        exact congrArg _ ih.1
      · simp only [draw_graph_pass, List.filter_cons]
        by_cases h : is_over x_1 x_2 y_1 y_2 dp.1 dp.2 &&
            !(marker_color == "transparent")
        · simp only [h, if_true, List.map_cons]
          exact congrArg _ ih.2
        · simp only [Bool.not_eq_true] at h
          simp only [h, if_false, Bool.false_eq_true]
          exact ih.2

/-! Panel (py_shapes.py, Panel.add_component).  Drawables are identified by
ids; the element list holds Option ids because the Python code temporarily
appends None when inserting a fresh name (the slot an out-of-range insert
could leave behind).  The element map is the name-to-drawable dict. -/

/-- Mirrors Python list.index: the first index whose element equals the
argument.  Python raises when the element is absent; the modelled value is
then the list's length (out of range, like the exception). -/
def list_index [DecidableEq α] : List α → α → Nat
  | [], _ => 0
  | b :: rest, a => if b = a then 0 else list_index rest a + 1

/-- Mirrors Python list.insert: a negative index counts from the end of the
list (clamped at 0), a too-large index appends at the end. -/
def py_insert (l : List α) (i : Int) (a : α) : List α :=
  let n : Int := l.length
  let j : Int := if i < 0 then max (i + n) 0 else min i n
  l.take j.toNat ++ a :: l.drop j.toNat

/-- Mirrors Python list.pop(i) for a nonnegative index: the list without the
element at i, together with that element (none when out of range, where
Python raises). -/
def py_pop (l : List α) (i : Nat) : List α × Option α :=
  (l.take i ++ l.drop (i + 1), l[i]?)

/-- Lookup in the element map (Python dict access by name). -/
def map_lookup : List (String × Nat) → String → Option Nat
  | [], _ => none
  | (k, v) :: rest, name => if k = name then some v else map_lookup rest name

/-- Update or append a binding in the element map (Python dict assignment). -/
def map_insert : List (String × Nat) → String → Nat → List (String × Nat)
  | [], name, v => [(name, v)]
  | (k, w) :: rest, name, v =>
      if k = name then (k, v) :: rest else (k, w) :: map_insert rest name v

/-- The Panel state touched by add_component: the ordered draw list
(_elements) and the name map (_element_map). -/
structure PanelState where
  elements : List (Option Nat)
  element_map : List (String × Nat)
deriving DecidableEq, Repr

/-- Mirrors Panel.add_component: when the name is already mapped, the old
occupant's draw position is found with list.index, the occupant is popped and
the new element inserted at the same position, and the occupant is returned;
otherwise None is appended, the element is inserted at the caller's index
(negative counting from the end), and the final slot is popped and
returned. -/
def add_component (st : PanelState) (element : Nat) (name : String)
    (index : Int) : PanelState × Option Nat :=
  match map_lookup st.element_map name with
  | some old =>
      let i := list_index st.elements (some old)
      let popped := py_pop st.elements i
      let els := py_insert popped.1 (i : Int) (some element)
      (⟨els, map_insert st.element_map name element⟩, popped.2.getD none)
  | none =>
      let els0 := st.elements ++ [none]
      let els1 := py_insert els0 index (some element)
      let popped := py_pop els1 (els1.length - 1)
      (⟨popped.1, map_insert st.element_map name element⟩, popped.2.getD none)

theorem list_index_append {α : Type} [DecidableEq α] (pre post : List α)
    (a : α) (h : a ∉ pre) : list_index (pre ++ a :: post) a = pre.length := by
  induction pre with
  | nil => simp [list_index]
  | cons b rest ih =>
      have hb : b ≠ a := fun hba => h (hba ▸ List.mem_cons_self b rest)
      have hrest : a ∉ rest := fun hr => h (List.mem_cons_of_mem b hr)
      simp only [List.cons_append, list_index, if_neg hb, List.length_cons]
      exact congrArg (fun t => t + 1) (ih hrest)

theorem py_insert_of_nonneg {α : Type} (l : List α) (i : Nat) (a : α)
    (hle : i ≤ l.length) :
    py_insert l (i : Int) a = l.take i ++ a :: l.drop i := by
  unfold py_insert
  have h1 : ¬ ((i : Int) < 0) := by omega
  have h2 : min (i : Int) (l.length : Int) = (i : Int) := by
    have : (i : Int) ≤ (l.length : Int) := by exact_mod_cast hle
    omega
  simp only [h1, if_false, h2, Int.toNat_natCast]

theorem py_insert_neg_one {α : Type} (l : List α) (a b : α) :
    py_insert (l ++ [a]) (-1) b = l ++ b :: [a] := by
  unfold py_insert
  have h1 : ((-1 : Int) < 0) := by omega
  have h2 : max ((-1 : Int) + ((l ++ [a]).length : Int)) 0 = (l.length : Int) := by
    simp only [List.length_append, List.length_cons, List.length_nil]
    omega
  simp only [h1, if_true, h2, Int.toNat_natCast, List.take_left, List.drop_left]

/-- C5: add_component with an already-used name replaces the previous
occupant at that occupant's existing draw position (its z-order index is
preserved) and returns the previous occupant; with a fresh name and index -1
the element is appended last in the draw list (drawn topmost) with every
other entry keeping its position, and None is returned. -/
theorem add_component_spec (st : PanelState) (element : Nat) (name : String) :
    (∀ (old : Nat) (pre post : List (Option Nat)) (index : Int),
        map_lookup st.element_map name = some old →
        st.elements = pre ++ some old :: post →
        some old ∉ pre →
        (add_component st element name index).1.elements =
          pre ++ some element :: post ∧
        (add_component st element name index).2 = some old) ∧
    (map_lookup st.element_map name = none →
        (add_component st element name (-1)).1.elements =
          st.elements ++ [some element] ∧
        (add_component st element name (-1)).2 = none) := by
  constructor
  · intro old pre post index hlook hsplit hnotin
    have hidx : list_index st.elements (some old) = pre.length := by
      rw [hsplit]; exact list_index_append pre post (some old) hnotin
    have htake : (pre ++ some old :: post).take pre.length = pre :=
      List.take_left pre (some old :: post)
    have hdrop : (pre ++ some old :: post).drop (pre.length + 1) = post := by
      have hlen : (pre ++ [some old]).length = pre.length + 1 := by simp
      have h3 : pre ++ some old :: post = (pre ++ [some old]) ++ post := by simp
      rw [h3]
      exact List.drop_left' hlen
    have hget : (pre ++ some old :: post)[pre.length]? = some (some old) := by
      rw [List.getElem?_append_right (Nat.le_refl _), Nat.sub_self]
      simp
    have hpop : py_pop st.elements pre.length = (pre ++ post, some (some old)) := by
      rw [hsplit]
      unfold py_pop
      rw [htake, hdrop, hget]
    have hlen2 : pre.length ≤ (pre ++ post).length := by simp
    have hins : py_insert (pre ++ post) (pre.length : Int) (some element) =
        pre ++ some element :: post := by
      rw [py_insert_of_nonneg _ _ _ hlen2, List.take_left, List.drop_left]
    constructor
    · simp only [add_component, hlook, hidx, hpop, hins]
    · simp only [add_component, hlook, hidx, hpop, Option.getD_some]
  · intro hlook
    have hins : py_insert (st.elements ++ [none]) (-1) (some element) =
        st.elements ++ some element :: [none] :=
      py_insert_neg_one st.elements none (some element)
    have hlen : (st.elements ++ some element :: [none]).length =
        st.elements.length + 2 := by simp
    have htake : (st.elements ++ some element :: [none]).take
        (st.elements.length + 1) = st.elements ++ [some element] := by
      have h2 : (st.elements ++ [some element]).length = st.elements.length + 1 := by
        simp
      have h3 : st.elements ++ some element :: [none] =
          (st.elements ++ [some element]) ++ [none] := by simp
      rw [h3]
      exact List.take_left' h2
    have hdrop : (st.elements ++ some element :: [none]).drop
        (st.elements.length + 2) = [] := by
      apply List.drop_eq_nil_of_le
      simp
    have hget : (st.elements ++ some element :: [none])[st.elements.length + 1]? =
        some none := by
      have h3 : st.elements ++ some element :: [none] =
          (st.elements ++ [some element]) ++ [none] := by simp
      have h2 : (st.elements ++ [some element]).length = st.elements.length + 1 := by
        simp
      rw [h3, List.getElem?_append_right (by omega), h2, Nat.sub_self]
      simp
    have harith : st.elements.length + 2 - 1 = st.elements.length + 1 := by
      omega
    constructor
    · simp only [add_component, hlook, hins, py_pop, hlen, harith, htake]
      rw [show st.elements.length + 1 + 1 = st.elements.length + 2 from rfl, hdrop]
      simp
    · simp only [add_component, hlook, hins, py_pop, hlen, harith, hget,
        Option.getD_some]

/-- Witness for C5: replacing name a (mapped to element 1, sitting between 0
and 2 in the draw list) with element 9 keeps its middle position and returns
1; adding a fresh name at index -1 appends on top and returns None. -/
theorem add_component_spec_witness :
    ((add_component ⟨[some 0, some 1, some 2], [("a", 1)]⟩ 9 "a" 0).1.elements =
        [some 0] ++ some 9 :: [some 2] ∧
      (add_component ⟨[some 0, some 1, some 2], [("a", 1)]⟩ 9 "a" 0).2 =
        some 1) ∧
    ((add_component ⟨[some 0], []⟩ 9 "b" (-1)).1.elements =
        [some 0] ++ [some 9] ∧
      (add_component ⟨[some 0], []⟩ 9 "b" (-1)).2 = none) :=
  ⟨(add_component_spec ⟨[some 0, some 1, some 2], [("a", 1)]⟩ 9 "a").1
      1 [some 0] [some 2] 0 (by decide) (by decide) (by decide),
   (add_component_spec ⟨[some 0], []⟩ 9 "b").2 (by decide)⟩

/-! Slider (graph_objects.py, Slider.slider_value property and setter).
The setter receives a bar POSITION; it computes the semantic value from the
bar's position read before the update, stores it, pushes the new bar
position, and notifies observers with the stored value. -/

/-- The slider_depth constant of Slider. -/
def slider_depth : ℚ := 20

/-- The Slider state touched by the slider_value property. -/
structure SliderState where
  position : Point
  size : Size
  orientation : Nat
  reverse : Bool
  slider_range : ℚ × ℚ
  bar_position : Point
  slider_value_stored : ℚ
deriving DecidableEq, Repr

/-- Mirrors the value computation of the slider_value setter as a function of
a bar coordinate along the orientation axis: pos and length are the slider's
own coordinate and extent on that axis, pos is shifted by
length - slider_depth when reversed, the track is shortened by half the bar
depth on both ends (slide_width = pos_2 - pos_1), the bar offset
(bar_pos - pos) is mirrored by the reverse multiplier, normalized by
slide_width, scaled by the range span and shifted by the range minimum. -/
def slider_value_of (s : SliderState) (bar_pos : ℚ) : ℚ :=
  let pos0 := pointIdx s.position s.orientation
  let length := sizeIdx s.size s.orientation
  let half_width := slider_depth / 2
  let reverse_multiplier : ℚ := if s.reverse then -1 else 1
  let pos := pos0 + (if s.reverse then length - slider_depth else 0)
  let pos_1 := pos + half_width
  let pos_2 := pos + length - half_width
  let slide_width := pos_2 - pos_1
  let cur_pos := (bar_pos - pos) * reverse_multiplier
  let value_range := s.slider_range.2 - s.slider_range.1
  value_range * (cur_pos / slide_width) + s.slider_range.1

/-- Mirrors the slider_value setter: the stored value is computed from the
bar position read BEFORE the bar is moved to the argument position, and that
stored value is what notify_observers receives (returned as the second
component). -/
def set_slider_value (s : SliderState) (value : Point) : SliderState × ℚ :=
  let v := slider_value_of s (pointIdx s.bar_position s.orientation)
  ({ s with slider_value_stored := v, bar_position := value }, v)

/-- The bar coordinate realising a given semantic value, inverting
slider_value_of (non-reversed orientation). -/
def bar_pos_for (s : SliderState) (v : ℚ) : ℚ :=
  let pos0 := pointIdx s.position s.orientation
  let length := sizeIdx s.size s.orientation
  let slide_width := length - slider_depth
  let value_range := s.slider_range.2 - s.slider_range.1
  pos0 + (v - s.slider_range.1) * slide_width / value_range

/-- The bar-to-value map is strictly monotone along the orientation axis and
round-trips with its inverse: recomputing the value from the bar coordinate
realising v yields exactly v (the rational-arithmetic counterpart of the
claim's floating-point tolerance).  Not a claim theorem: C8 is settled as a
code bug on its notification conjunct, and this records that the mapping
conjuncts do hold of the code. -/
theorem slider_value_of_monotone_roundtrip (s : SliderState)
    (hrev : s.reverse = false)
    (hlen : slider_depth < sizeIdx s.size s.orientation)
    (hrange : s.slider_range.1 < s.slider_range.2) :
    (∀ b1 b2 : ℚ, b1 < b2 → slider_value_of s b1 < slider_value_of s b2) ∧
    (∀ v : ℚ, slider_value_of s (bar_pos_for s v) = v) := by
  have hsw : (0 : ℚ) < sizeIdx s.size s.orientation - slider_depth := by
    linarith
  have hvr : (0 : ℚ) < s.slider_range.2 - s.slider_range.1 := by linarith
  have hq : pointIdx s.position s.orientation + 0 +
      sizeIdx s.size s.orientation - slider_depth / 2 -
      (pointIdx s.position s.orientation + 0 + slider_depth / 2) =
      sizeIdx s.size s.orientation - slider_depth := by ring
  constructor
  · intro b1 b2 hb
    simp only [slider_value_of, hrev, Bool.false_eq_true, if_false]
    rw [hq]
    have hfrac : (b1 - (pointIdx s.position s.orientation + 0)) * 1 /
        (sizeIdx s.size s.orientation - slider_depth) <
        (b2 - (pointIdx s.position s.orientation + 0)) * 1 /
        (sizeIdx s.size s.orientation - slider_depth) :=
      div_lt_div_of_pos_right (by linarith) hsw
    have := mul_lt_mul_of_pos_left hfrac hvr
    linarith
  · intro v
    simp only [slider_value_of, bar_pos_for, hrev, Bool.false_eq_true, if_false]
    rw [hq]
    field_simp
    ring

/-- The concrete slider of the C8 failing input: horizontal, not reversed,
origin (0, 0), track 120 x 20 (slide_width 100), range (0, 1), bar at
coordinate 0. -/
def demo_slider : SliderState :=
  ⟨⟨0, 0⟩, ⟨120, 20⟩, 0, false, (0, 1), ⟨0, 0⟩, 0⟩

/-- C8 failing input, evaluated: pushing bar position (60, 0) onto
demo_slider moves the bar to 60, whose semantic value under the value
formula is 3/5, yet the observers are notified with 0 - the value of the bar
position before the update - so the notification conjunct of the claim fails
on the code. -/
theorem slider_notifies_stale_value :
    (set_slider_value demo_slider ⟨60, 0⟩).2 = 0 ∧
    (set_slider_value demo_slider ⟨60, 0⟩).1.bar_position = ⟨60, 0⟩ ∧
    slider_value_of (set_slider_value demo_slider ⟨60, 0⟩).1
      (pointIdx (set_slider_value demo_slider ⟨60, 0⟩).1.bar_position 0) =
      3 / 5 ∧
    (0 : ℚ) ≠ 3 / 5 := by
  refine ⟨?_, rfl, ?_, by norm_num⟩
  · simp only [set_slider_value, slider_value_of, demo_slider, pointIdx,
      sizeIdx, slider_depth]
    norm_num
  · simp only [set_slider_value, slider_value_of, demo_slider, pointIdx,
      sizeIdx, slider_depth]
    norm_num

end FutureTemps
